import Mathlib

/-!
Shallow embedding of the zitadel eventstore v2 CockroachDB repository
(`internal/eventstore/v2/repository/sql/crdb.go`): the data model
(`repository.Event`, `repository.SearchQuery`), the append engine (`Push`
with the conditional-insert statement `crdbInsert`), the query path
(`columnName`, `query`, `Filter`) and the placeholder translator
(`placeholder`).

Modelling conventions:
* machine integers (`uint64` sequences) are `Nat`; timestamps are `Nat`
  with `0` standing for Go's zero `time.Time` (absent);
* the opaque `[]byte` payload and string columns are `String`; the
  server-generated `id` column is drawn from a counter and modelled as `Nat`;
* Go pointers `*repository.Event` used as `PreviousEvent` back-references
  into the same batch are modelled as an index (`Option Nat`) into the
  batch list, dereferenced against the current state of the batch;
* the concurrent per-event goroutines joined by a `WaitGroup` are
  serialized in submission order, the fallback the design explicitly
  allows; the error channel becomes the list of errors in that order and
  `Push` surfaces its head, as the `for err := range errs` loop does;
* `database/sql` statement execution is deterministic in the model: the
  only statement failure is the conditional insert producing no row
  (`sql.ErrNoRows` on `Scan`); backend I/O for the read path is an
  explicit oracle argument.
-/

namespace ZES

/-- Kinds of classified errors of the `caos_errs` package
(`ThrowPreconditionFailed`, `ThrowInternal`, `ThrowInvalidArgument`). -/
inductive ErrKind where
  | preconditionFailed
  | internal
  | invalidArgument
deriving DecidableEq

/-- A classified error: its kind together with the opaque diagnostic id
the source attaches (e.g. `ThrowInternal(err, "SQL-SBP37", ...)`). -/
structure CaosErr where
  kind : ErrKind
  id : String
deriving DecidableEq

/-- `repository.Event` from the repository package. `Type` is renamed
`eventType` (`type` is reserved). `PreviousEvent *repository.Event` points
at another in-flight event of the same batch; the pointer is modelled as an
index into the batch list. -/
structure Event where
  id : Nat
  sequence : Nat
  previousSequence : Nat
  creationDate : Nat
  eventType : String
  data : String
  editorService : String
  editorUser : String
  resourceOwner : String
  aggregateType : String
  aggregateID : String
  version : String
  previousEvent : Option Nat
  checkPreviousSequence : Bool
deriving DecidableEq

/-- One persisted row of `eventstore.events` (the logical schema used by
the `crdbInsert` statement and the event projection). `previous_sequence`
is nullable: NULL exactly when the concurrency check was disabled. -/
structure Row where
  id : Nat
  eventSequence : Nat
  eventType : String
  aggregateType : String
  aggregateID : String
  version : String
  creationDate : Nat
  data : String
  editorUser : String
  editorService : String
  resourceOwner : String
  previousSequence : Option Nat
deriving DecidableEq

/-- The backend state: the append-only `eventstore.events` table plus the
server-side generators for `event_sequence` and `id`. -/
structure DB where
  rows : List Row
  nextSeq : Nat
  nextID : Nat
deriving DecidableEq

/-- Modelled from the spec: the repository's `Sequence` type (types.go is
not under src/) binds the zero sequence as SQL NULL — the spec treats
"previousSequence absent" as the NULL parameter case. -/
def sequenceValue (n : Nat) : Option Nat :=
  if n = 0 then none else some n

/-- Modelled from the spec: scanning a nullable sequence defaults NULL to
the zero sequence ("no aggregate yet" decodes to zero). -/
def sequenceScan (v : Option Nat) : Nat :=
  v.getD 0

/-- The bound parameters `$1` .. `$11` of the `crdbInsert` statement, in
source order. `creationDate` is the `sql.NullTime` bound at `$5` (NULL for
Go's zero time), `previousSequence` the nullable `Sequence` at `$10`. -/
structure InsertParams where
  eventType : String
  aggregateType : String
  aggregateID : String
  version : String
  creationDate : Option Nat
  data : String
  editorUser : String
  editorService : String
  resourceOwner : String
  previousSequence : Option Nat
  checkPrevious : Bool
deriving DecidableEq

/-- `MAX(event_sequence) ... WHERE aggregate_type = $2 AND aggregate_id = $3`
of the `input_event` derived table: NULL (`none`) when the aggregate has no
rows yet. -/
def maxEventSeq (rows : List Row) (aggType aggID : String) : Option Nat :=
  ((rows.filter fun r => r.aggregateType == aggType && r.aggregateID == aggID).map
    Row.eventSequence).max?

/-- The derived-table filter of the `crdbInsert` statement:
`(max_event_seq IS NULL AND previous_sequence IS NULL) OR
(max_event_seq IS NOT NULL AND max_event_seq = previous_sequence)`.
SQL three-valued equality: a NULL operand never satisfies the second
disjunct. -/
def seqMatches (maxSeq prev : Option Nat) : Bool :=
  match maxSeq, prev with
  | none, none => true
  | some m, some p => m == p
  | _, _ => false

/-- The row the `crdbInsert` statement projects for insertion: the bound
parameters with `COALESCE(creation_date, NOW())` (applied in the derived
table and again in the insert select — idempotent) and
`CASE WHEN NOT check_previous THEN NULL ELSE previous_sequence END`;
`id` and `event_sequence` are server-assigned. -/
def insertedRow (db : DB) (now : Nat) (p : InsertParams) : Row :=
  { id := db.nextID
    eventSequence := db.nextSeq
    eventType := p.eventType
    aggregateType := p.aggregateType
    aggregateID := p.aggregateID
    version := p.version
    creationDate := p.creationDate.getD now
    data := p.data
    editorUser := p.editorUser
    editorService := p.editorService
    resourceOwner := p.resourceOwner
    previousSequence := if !p.checkPrevious then none else p.previousSequence }

/-- Executing the `crdbInsert` statement against the database: the
`WHERE 1 = CASE ...` clause admits the projected row iff
`NOT check_previous` or the derived-table filter produces a row;
`RETURNING id, event_sequence, previous_sequence, creation_date` is the
returned `Row`. `none` is the zero-row outcome (`sql.ErrNoRows` on scan). -/
def crdbInsert (db : DB) (now : Nat) (p : InsertParams) : Option (DB × Row) :=
  if !p.checkPrevious ||
      seqMatches (maxEventSeq db.rows p.aggregateType p.aggregateID) p.previousSequence then
    some ({ rows := db.rows ++ [insertedRow db now p]
            nextSeq := db.nextSeq + 1
            nextID := db.nextID + 1 }, insertedRow db now p)
  else
    none

/-- Lines 123-130 of `Push`: `previousSequence := Sequence(event.PreviousSequence)`;
if `PreviousEvent` is set, events linked across different aggregates are a
`ThrowPreconditionFailed(nil, "SQL-J55uR", "aggregate of linked events unequal")`,
otherwise the referenced event's (current) sequence is used. A dangling
index has no Go counterpart (the pointer always references an event) and
falls back to the event's own field. -/
def resolvePrev (evts : List Event) (e : Event) : Except CaosErr Nat :=
  match e.previousEvent with
  | none => .ok e.previousSequence
  | some j =>
    match evts[j]? with
    | none => .ok e.previousSequence
    | some pe =>
      if pe.aggregateType ≠ e.aggregateType ∨ pe.aggregateID ≠ e.aggregateID then
        .error ⟨.preconditionFailed, "SQL-J55uR"⟩
      else
        .ok pe.sequence

/-- How `Push` binds an event's fields to the prepared statement
(lines 131-145): `sql.NullTime{Valid: !event.CreationDate.IsZero()}` for
`$5` and the nullable resolved previous sequence for `$10`. -/
def insertParams (e : Event) (prev : Nat) : InsertParams :=
  { eventType := e.eventType
    aggregateType := e.aggregateType
    aggregateID := e.aggregateID
    version := e.version
    creationDate := if e.creationDate = 0 then none else some e.creationDate
    data := e.data
    editorUser := e.editorUser
    editorService := e.editorService
    resourceOwner := e.resourceOwner
    previousSequence := sequenceValue prev
    checkPrevious := e.checkPreviousSequence }

/-- One per-event task of `Push` (the goroutine body, lines 121-158):
resolve the previous sequence, execute the statement, and on success scan
`id, event_sequence, previous_sequence, creation_date` back onto the event.
The unconditional line 148 `event.PreviousSequence = uint64(previousSequence)`
means a failed scan (which writes none of its destinations) still
overwrites `previousSequence` with the resolved value; any statement error
is `ThrowInternal(err, "SQL-SBP37", "unable to create event")`. Returns the
(possibly mutated) event, the database state, and the error sent on the
channel, if any. -/
def pushOne (evts : List Event) (db : DB) (now : Nat) (e : Event) :
    Event × DB × Option CaosErr :=
  match resolvePrev evts e with
  | .error err => (e, db, some err)
  | .ok prev =>
    match crdbInsert db now (insertParams e prev) with
    | some (db2, r) =>
      ({ e with
          id := r.id
          sequence := r.eventSequence
          previousSequence := sequenceScan r.previousSequence
          creationDate := r.creationDate }, db2, none)
    | none =>
      ({ e with previousSequence := prev }, db, some ⟨.internal, "SQL-SBP37"⟩)

/-- The per-event tasks run serially in submission order (the fallback the
design sanctions for a non-concurrency-safe transaction handle). `n` is the
number of events still to process, `i` the index of the next one; the
batch list is updated in place (`List.set`) as the Go tasks mutate the
pointed-to events, and errors accumulate in channel order. -/
def pushLoop (now : Nat) :
    Nat → Nat → DB → List Event → List CaosErr → DB × List Event × List CaosErr
  | 0, _, db, evts, errList => (db, evts, errList)
  | n + 1, i, db, evts, errList =>
    match evts[i]? with
    | none => pushLoop now n (i + 1) db evts errList
    | some e =>
      let r := pushOne evts db now e
      pushLoop now n (i + 1) r.2.1 (evts.set i r.1) (errList ++ r.2.2.toList)

/-- All per-event tasks of one `Push` call, started on the submitted batch. -/
def pushEvents (db : DB) (now : Nat) (events : List Event) :
    DB × List Event × List CaosErr :=
  pushLoop now events.length 0 db events []

/-- `Push` (lines 109-173): run every task, wait, and take the first error
from the channel; a first error aborts the `crdb.ExecuteTx` transaction
(the database state rolls back to the input, the in-place event mutations
do not), otherwise the transaction commits. Errors from the closure are
already classified `CaosError`s, so the outer wrap of line 168 leaves them
unchanged. Returns the committed/rolled-back database, the batch as
mutated, and the surfaced error. -/
def Push (db : DB) (now : Nat) (events : List Event) :
    DB × List Event × Option CaosErr :=
  let r := pushEvents db now events
  match r.2.2 with
  | [] => (r.1, r.2.1, none)
  | err :: _ => (db, r.2.1, some err)

/-! ### Query path: field/operator mapping, placeholder translator, `query`, `Filter` -/

/-- `repository.Field`: the abstract event fields a `SearchQuery` may
reference. The Go type is an integer enumeration, so values outside the
declared constants exist; `unrecognized n` stands for any such value. -/
inductive Field where
  | aggregateType
  | aggregateID
  | sequence
  | resourceOwner
  | editorService
  | editorUser
  | eventType
  | unrecognized (n : Nat)
deriving DecidableEq

/-- `repository.Operation`: the comparison operators of a condition. -/
inductive Operation where
  | equals
  | greater
  | less
  | inSet
deriving DecidableEq

/-- One condition of a `SearchQuery` (`repository.Filter`); the value is
kept opaque. -/
structure SearchFilter where
  field : Field
  operation : Operation
  value : String
deriving DecidableEq

/-- The query intent: fetch matching event rows, or only `MAX(event_sequence)`. -/
inductive Columns where
  | event
  | maxSequence
deriving DecidableEq

/-- `repository.SearchQuery`: intent plus ordered conditions. -/
structure SearchQuery where
  columns : Columns
  filters : List SearchFilter
deriving DecidableEq

/-- `columnName` (lines 238-257): the fixed field-to-column table; every
value outside the seven known constants falls to the `default` branch and
yields the empty string. -/
def columnName (col : Field) : String :=
  match col with
  | .aggregateID => "aggregate_id"
  | .aggregateType => "aggregate_type"
  | .sequence => "event_sequence"
  | .resourceOwner => "resource_owner"
  | .editorService => "editor_service"
  | .editorUser => "editor_user"
  | .eventType => "event_type"
  | .unrecognized _ => ""

/-- `operation` (lines 266-276): operator to SQL comparison. -/
def operation (op : Operation) : String :=
  match op with
  | .equals | .inSet => "="
  | .greater => ">"
  | .less => "<"

/-- `conditionFormat` (lines 259-264): membership renders as
`column = ANY(?)`, every other operator as a binary comparison. -/
def conditionFormat (op : Operation) : String :=
  match op with
  | .inSet => "%s %s ANY(?)"
  | _ => "%s %s ?"

/-- `eventQuery` (lines 219-233): the full event-row projection. -/
def eventQuery : String :=
  "SELECT" ++
    " creation_date" ++
    ", event_type" ++
    ", event_sequence" ++
    ", previous_sequence" ++
    ", event_data" ++
    ", editor_service" ++
    ", editor_user" ++
    ", resource_owner" ++
    ", aggregate_type" ++
    ", aggregate_id" ++
    ", aggregate_version" ++
    " FROM eventstore.events"

/-- `maxSequenceQuery` (lines 234-236). -/
def maxSequenceQuery : String :=
  "SELECT MAX(event_sequence) FROM eventstore.events"

/-- Positions of the `?` marker in the query, as computed by
`placeholder.FindAllStringIndex(query, -1)`: the regular expression `\?`
matches exactly the single character `?`, so each occurrence is the pair
`[l, l+1]` and only the start index is kept. `i` is the index of the next
character. -/
def qmarkIndices : List Char → Nat → List Nat
  | [], _ => []
  | c :: cs, i =>
    if c = '?' then i :: qmarkIndices cs (i + 1) else qmarkIndices cs (i + 1)

/-- The accumulation loop of `placeholder` (lines 290-296), from the `i`-th
occurrence on: each step appends `"$" + strconv.Itoa(i+1)` and the slice
`query[l[1]:nextIDX]`, where `nextIDX` is the next occurrence's start or
`len(query)` for the last one, and `l[1] = l[0] + 1`. -/
def spliceFrom (q : List Char) : List Nat → Nat → List Char
  | [], _ => []
  | l :: rest, i =>
    let nextIDX :=
      match rest with
      | [] => q.length
      | l2 :: _ => l2
    ('$' :: Nat.toDigits 10 (i + 1)) ++ ((q.drop (l + 1)).take (nextIDX - (l + 1))) ++
      spliceFrom q rest (i + 1)

/-- `placeholder` (lines 283-298) on the character list, with the
occurrence counter starting at `i`: no occurrence returns the query
unchanged, otherwise the prefix `query[:occurances[0][0]]` followed by the
accumulation loop. The Go loop starts the counter at 0. -/
def placeholderAt (q : List Char) (i : Nat) : List Char :=
  match qmarkIndices q 0 with
  | [] => q
  | l :: rest => q.take l ++ spliceFrom q (l :: rest) i

/-- `placeholder` (lines 283-298): replace every `?` with the postgres
placeholders `$1`, `$2`, ... -/
def placeholder (query : String) : String :=
  ⟨placeholderAt query.data 0⟩

/-- The claim's description of the translator, written from its words: walk
the string left to right, replacing the `n`-th occurrence of `?` by `$n`
(numbered from 1) and keeping every other character. Compared with
`placeholder` in the C5 theorem. -/
def placeholderSpec : List Char → Nat → List Char
  | [], _ => []
  | c :: cs, n =>
    if c = '?' then ('$' :: Nat.toDigits 10 n) ++ placeholderSpec cs (n + 1)
    else c :: placeholderSpec cs n

/-- Modelled from the spec: one rendered condition of the query builder
(`prepareCondition` of query.go, which is not under src/) — map the field
through `columnName` and the operator through `operation`, then instantiate
`conditionFormat`; an unknown field or operator makes the condition (and so
the builder) fail with the empty string. -/
def filterClause (f : SearchFilter) : String :=
  let col := columnName f.field
  let op := operation f.operation
  if col = "" ∨ op = "" then ""
  else
    match f.operation with
    | .inSet => col ++ " " ++ op ++ " ANY(?)"
    | _ => col ++ " " ++ op ++ " ?"

/-- Modelled from the spec: `buildQuery` (query.go, not under src/) —
select the base projection from the intent, AND-join the rendered
conditions in order onto the WHERE clause, renumber the neutral markers via
`placeholder`, and return the bound values in order; any failed condition
makes the whole builder produce empty SQL and no values. -/
def buildQuery (sq : SearchQuery) : String × List String :=
  let base :=
    match sq.columns with
    | .event => eventQuery
    | .maxSequence => maxSequenceQuery
  let clauses := sq.filters.map filterClause
  if clauses.contains "" then ("", [])
  else
    let whereClause :=
      if clauses = [] then "" else " WHERE " ++ String.intercalate " AND " clauses
    (placeholder (base ++ whereClause), sq.filters.map SearchFilter.value)

/-- Modelled from the spec: the events row scanner of the builder decodes
one full row per call into an `Event` (fields not stored in a column decode
to their zero values). -/
def rowToEvent (r : Row) : Event :=
  { id := r.id
    sequence := r.eventSequence
    previousSequence := sequenceScan r.previousSequence
    creationDate := r.creationDate
    eventType := r.eventType
    data := r.data
    editorService := r.editorService
    editorUser := r.editorUser
    resourceOwner := r.resourceOwner
    aggregateType := r.aggregateType
    aggregateID := r.aggregateID
    version := r.version
    previousEvent := none
    checkPreviousSequence := false }

/-- `query` (lines 196-217): build the SQL; empty SQL is
`ThrowInvalidArgument(nil, "SQL-rWeBw", "invalid query factory")` before
any backend round-trip; a failed `db.client.Query` is
`ThrowInternal(err, "SQL-IJuyR", "unable to filter events")`; otherwise
every returned row is scanned into the destination. The backend round-trip
is the explicit oracle `backend` (its rows, or its SQL error), consulted
only after the empty-SQL check. -/
def query (sq : SearchQuery) (backend : Except String (List Row)) :
    Except CaosErr (List Event) :=
  if (buildQuery sq).1 = "" then .error ⟨.invalidArgument, "SQL-rWeBw"⟩
  else
    match backend with
    | .error _ => .error ⟨.internal, "SQL-IJuyR"⟩
    | .ok rows => .ok (rows.map rowToEvent)

/-- `Filter` (lines 176-184): start from the non-nil empty slice
`events = []*repository.Event{}`, run `query`, and on error return the nil
slice with the error. The first component models the returned slice
(`none` = Go `nil`), the second the returned error. -/
def Filter (sq : SearchQuery) (backend : Except String (List Row)) :
    Option (List Event) × Option CaosErr :=
  match query sq backend with
  | .error err => (none, some err)
  | .ok evts => (some evts, none)

/-! ### Concrete fixtures used by witness and counterexample theorems -/

/-- A well-formed event about to be appended: no server-assigned values
yet, concurrency check enabled, previous sequence zero (fresh aggregate). -/
def baseE : Event :=
  { id := 0
    sequence := 0
    previousSequence := 0
    creationDate := 0
    eventType := "t"
    data := "d"
    editorService := "svc"
    editorUser := "u"
    resourceOwner := "ro"
    aggregateType := "agg"
    aggregateID := "1"
    version := "v1"
    previousEvent := none
    checkPreviousSequence := true }

/-- An empty store whose generators are at 1 and 100. -/
def db0 : DB := { rows := [], nextSeq := 1, nextID := 100 }

/-- A batch companion carrying an already-assigned sequence, referenced by
`eW` through `previousEvent`. -/
def peW : Event := { baseE with sequence := 9 }

/-- An event chained to `peW` (same aggregate) whose caller-supplied
`previousSequence` differs from the resolved one. -/
def eW : Event :=
  { baseE with
      previousSequence := 2
      previousEvent := some 0 }

/-- An event whose `previousEvent` back-reference targets an event of a
different aggregate (`aggregateID` "2" vs "1"). -/
def eMis : Event :=
  { baseE with
      aggregateID := "2"
      previousEvent := some 0 }

/-! ### Frame predicates over batches

The per-event tasks mutate only the server-assigned fields (`id`,
`sequence`, `previousSequence`, `creationDate`); the fields consulted by
the linked-events check are untouched. These predicates state that. -/

/-- The fields of an event consulted by the linked-events aggregate check
are equal in `a` and `b`. -/
def frameEq (a b : Event) : Prop :=
  b.aggregateType = a.aggregateType ∧ b.aggregateID = a.aggregateID ∧
    b.previousEvent = a.previousEvent

/-- `frameEq` lifted to optional lookups. -/
def frameEqO : Option Event → Option Event → Prop
  | none, none => True
  | some a, some b => frameEq a b
  | _, _ => False

/-- Pointwise `frameEq` between two batch states. -/
def frameEqL (xs ys : List Event) : Prop := ∀ k : Nat, frameEqO xs[k]? ys[k]?

/-- The `i`-th event of the batch is linked via `previousEvent` to an event
of a different aggregate — the condition of line 125. -/
def mismatchAt (evts : List Event) (i : Nat) : Prop :=
  ∃ e j pe, evts[i]? = some e ∧ e.previousEvent = some j ∧ evts[j]? = some pe ∧
    (pe.aggregateType ≠ e.aggregateType ∨ pe.aggregateID ≠ e.aggregateID)

/-! ### Helper lemmas about the statement and the per-event task -/

theorem crdbInsert_some_rows {db : DB} {now : Nat} {p : InsertParams} {db2 : DB} {r : Row}
    (h : crdbInsert db now p = some (db2, r)) :
    db2.rows = db.rows ++ [r] ∧ r.id = db.nextID ∧ r.eventSequence = db.nextSeq ∧
      r.creationDate = p.creationDate.getD now := by
  unfold crdbInsert at h
  split at h
  · simp only [Option.some.injEq, Prod.mk.injEq] at h
    obtain ⟨h1, h2⟩ := h
    subst h1; subst h2
    exact ⟨rfl, rfl, rfl, rfl⟩
  · exact absurd h (by simp)

theorem pushOne_ok {evts : List Event} {db : DB} {now : Nat} {e : Event} {prev : Nat}
    {db2 : DB} {r : Row}
    (h1 : resolvePrev evts e = .ok prev)
    (h2 : crdbInsert db now (insertParams e prev) = some (db2, r)) :
    pushOne evts db now e =
      ({ e with
          id := r.id
          sequence := r.eventSequence
          previousSequence := sequenceScan r.previousSequence
          creationDate := r.creationDate }, db2, none) := by
  simp only [pushOne, h1, h2]

theorem pushOne_noRow {evts : List Event} {db : DB} {now : Nat} {e : Event} {prev : Nat}
    (h1 : resolvePrev evts e = .ok prev)
    (h2 : crdbInsert db now (insertParams e prev) = none) :
    pushOne evts db now e =
      ({ e with previousSequence := prev }, db, some ⟨.internal, "SQL-SBP37"⟩) := by
  simp only [pushOne, h1, h2]

theorem pushOne_resolveErr {evts : List Event} {db : DB} {now : Nat} {e : Event}
    {err : CaosErr} (h1 : resolvePrev evts e = .error err) :
    pushOne evts db now e = (e, db, some err) := by
  simp only [pushOne, h1]

theorem frameEq_refl (a : Event) : frameEq a a := ⟨rfl, rfl, rfl⟩

theorem frameEq_trans {a b c : Event} (h1 : frameEq a b) (h2 : frameEq b c) : frameEq a c :=
  ⟨h2.1.trans h1.1, h2.2.1.trans h1.2.1, h2.2.2.trans h1.2.2⟩

theorem frameEqO_refl (a : Option Event) : frameEqO a a := by
  cases a with
  | none => trivial
  | some e => exact frameEq_refl e

theorem frameEqO_trans {a b c : Option Event} (h1 : frameEqO a b) (h2 : frameEqO b c) :
    frameEqO a c := by
  cases a <;> cases b <;> cases c <;> simp only [frameEqO] at h1 h2 ⊢
  exact frameEq_trans h1 h2

theorem frameEqL_refl (xs : List Event) : frameEqL xs xs := fun _ => frameEqO_refl _

theorem frameEqL_trans {xs ys zs : List Event} (h1 : frameEqL xs ys) (h2 : frameEqL ys zs) :
    frameEqL xs zs := fun k => frameEqO_trans (h1 k) (h2 k)

theorem pushOne_frame (evts : List Event) (db : DB) (now : Nat) (e : Event) :
    frameEq e (pushOne evts db now e).1 := by
  cases hres : resolvePrev evts e with
  | error err => rw [pushOne_resolveErr hres]; exact frameEq_refl e
  | ok prev =>
    cases hins : crdbInsert db now (insertParams e prev) with
    | none => rw [pushOne_noRow hres hins]; exact ⟨rfl, rfl, rfl⟩
    | some pr =>
      obtain ⟨db2, r⟩ := pr
      rw [pushOne_ok hres hins]
      exact ⟨rfl, rfl, rfl⟩

theorem frameEqL_set {evts : List Event} {i : Nat} {e e2 : Event}
    (hi : evts[i]? = some e) (he : frameEq e e2) :
    frameEqL evts (evts.set i e2) := by
  intro k
  by_cases hk : i = k
  · subst hk
    rw [List.getElem?_set_eq_of_lt e2 (List.getElem?_eq_some.mp hi).1, hi]
    exact he
  · rw [List.getElem?_set_ne hk]
    exact frameEqO_refl _

theorem pushLoop_frame (now : Nat) :
    ∀ (n i : Nat) (db : DB) (evts : List Event) (errList : List CaosErr),
      frameEqL evts (pushLoop now n i db evts errList).2.1 := by
  intro n
  induction n with
  | zero => intro i db evts errList; exact frameEqL_refl evts
  | succ n ih =>
    intro i db evts errList
    unfold pushLoop
    cases h : evts[i]? with
    | none => exact ih (i + 1) db evts errList
    | some e =>
      exact frameEqL_trans (frameEqL_set h (pushOne_frame evts db now e))
        (ih (i + 1) _ _ _)

theorem pushLoop_length (now : Nat) :
    ∀ (n i : Nat) (db : DB) (evts : List Event) (errList : List CaosErr),
      ((pushLoop now n i db evts errList).2.1).length = evts.length := by
  intro n
  induction n with
  | zero => intro i db evts errList; rfl
  | succ n ih =>
    intro i db evts errList
    unfold pushLoop
    cases h : evts[i]? with
    | none => exact ih (i + 1) db evts errList
    | some e =>
      rw [ih (i + 1) _ _ _]
      exact List.length_set evts i _

theorem pushLoop_errs_append (now : Nat) :
    ∀ (n i : Nat) (db : DB) (evts : List Event) (errList : List CaosErr),
      (pushLoop now n i db evts errList).2.2 =
        errList ++ (pushLoop now n i db evts []).2.2 := by
  intro n
  induction n with
  | zero => intro i db evts errList; simp [pushLoop]
  | succ n ih =>
    intro i db evts errList
    unfold pushLoop
    cases h : evts[i]? with
    | none => exact ih (i + 1) db evts errList
    | some e =>
      rw [ih (i + 1) _ _ (errList ++ _), ih (i + 1) _ _ ([] ++ _)]
      simp [List.append_assoc]

theorem mismatchAt_of_frameEqL {xs ys : List Event} {i : Nat}
    (hf : frameEqL xs ys) (hm : mismatchAt xs i) : mismatchAt ys i := by
  obtain ⟨e, j, pe, hi, hpe, hj, hne⟩ := hm
  have hfi := hf i
  have hfj := hf j
  rw [hi] at hfi
  rw [hj] at hfj
  cases hyi : ys[i]? with
  | none => rw [hyi] at hfi; exact absurd hfi (by simp [frameEqO])
  | some b =>
    cases hyj : ys[j]? with
    | none => rw [hyj] at hfj; exact absurd hfj (by simp [frameEqO])
    | some pb =>
      rw [hyi] at hfi; rw [hyj] at hfj
      refine ⟨b, j, pb, hyi, ?_, hyj, ?_⟩
      · rw [hfi.2.2, hpe]
      · rcases hne with h | h
        · exact Or.inl (by rw [hfj.1, hfi.1]; exact h)
        · exact Or.inr (by rw [hfj.2.1, hfi.2.1]; exact h)

theorem pushOne_mismatch {evts : List Event} {i : Nat} {e : Event}
    (hi : evts[i]? = some e) (hm : mismatchAt evts i) (db : DB) (now : Nat) :
    pushOne evts db now e = (e, db, some ⟨.preconditionFailed, "SQL-J55uR"⟩) := by
  obtain ⟨e', j, pe, hi', hpe, hj, hne⟩ := hm
  rw [hi] at hi'
  injection hi' with he'
  subst he'
  apply pushOne_resolveErr
  simp only [resolvePrev, hpe, hj]
  rw [if_pos hne]

theorem pushLoop_errs_ne_nil_of_mismatch (now : Nat) :
    ∀ (n i : Nat) (db : DB) (evts : List Event) (errList : List CaosErr) (k : Nat),
      i ≤ k → k < i + n → mismatchAt evts k →
      (pushLoop now n i db evts errList).2.2 ≠ [] := by
  intro n
  induction n with
  | zero => intro i db evts errList k h1 h2 _; omega
  | succ n ih =>
    intro i db evts errList k h1 h2 hm
    unfold pushLoop
    cases h : evts[i]? with
    | none =>
      rcases Nat.eq_or_lt_of_le h1 with rfl | hlt
      · obtain ⟨e, j, pe, hi, _⟩ := hm
        rw [h] at hi
        exact absurd hi (by simp)
      · exact ih (i + 1) db evts errList k hlt (by omega) hm
    | some e =>
      dsimp only
      rcases Nat.eq_or_lt_of_le h1 with rfl | hlt
      · rw [pushOne_mismatch h hm db now]
        rw [pushLoop_errs_append]
        simp
      · refine ih (i + 1) _ _ _ k hlt (by omega) ?_
        exact mismatchAt_of_frameEqL (frameEqL_set h (pushOne_frame evts db now e)) hm

theorem pushOne_none_rows_length {evts : List Event} {db : DB} {now : Nat} {e : Event}
    (h : (pushOne evts db now e).2.2 = none) :
    (pushOne evts db now e).2.1.rows.length = db.rows.length + 1 := by
  cases hres : resolvePrev evts e with
  | error err => rw [pushOne_resolveErr hres] at h ⊢; exact absurd h (by simp)
  | ok prev =>
    cases hins : crdbInsert db now (insertParams e prev) with
    | none => rw [pushOne_noRow hres hins] at h ⊢; exact absurd h (by simp)
    | some pr =>
      obtain ⟨db2, r⟩ := pr
      rw [pushOne_ok hres hins]
      simp [(crdbInsert_some_rows hins).1]

theorem pushLoop_noErrs_rows (now : Nat) :
    ∀ (n i : Nat) (db : DB) (evts : List Event) (errList : List CaosErr),
      i + n ≤ evts.length →
      (pushLoop now n i db evts errList).2.2 = errList →
      (pushLoop now n i db evts errList).1.rows.length = db.rows.length + n := by
  intro n
  induction n with
  | zero => intro i db evts errList _ _; rfl
  | succ n ih =>
    intro i db evts errList hlen herr
    rw [pushLoop] at herr ⊢
    cases h : evts[i]? with
    | none =>
      exact absurd h (by
        have hlt : i < evts.length := by omega
        simp [List.getElem?_eq_getElem hlt])
    | some e =>
      rw [h] at herr
      dsimp only at herr ⊢
      cases herr2 : (pushOne evts db now e).2.2 with
      | some err =>
        rw [herr2, pushLoop_errs_append] at herr
        exact absurd herr (by simp)
      | none =>
        rw [herr2] at herr
        rw [Option.toList_none, List.append_nil] at herr ⊢
        have hmain := ih (i + 1) (pushOne evts db now e).2.1
          (evts.set i (pushOne evts db now e).1) errList
          (by rw [List.length_set]; omega) herr
        rw [hmain, pushOne_none_rows_length herr2]
        omega

theorem push_of_errs_nil {db : DB} {now : Nat} {events : List Event}
    (h : (pushEvents db now events).2.2 = []) :
    Push db now events =
      ((pushEvents db now events).1, (pushEvents db now events).2.1, none) := by
  simp only [Push]
  rw [h]

theorem push_of_errs_cons {db : DB} {now : Nat} {events : List Event} {err : CaosErr}
    {rest : List CaosErr} (h : (pushEvents db now events).2.2 = err :: rest) :
    Push db now events = (db, (pushEvents db now events).2.1, some err) := by
  simp only [Push]
  rw [h]

/-! ### Helper lemmas about the placeholder translator -/

theorem qmarkIndices_cons (c : Char) (cs : List Char) (i : Nat) :
    qmarkIndices (c :: cs) i =
      if c = '?' then i :: qmarkIndices cs (i + 1) else qmarkIndices cs (i + 1) := rfl

theorem placeholderSpec_cons (c : Char) (cs : List Char) (n : Nat) :
    placeholderSpec (c :: cs) n =
      if c = '?' then ('$' :: Nat.toDigits 10 n) ++ placeholderSpec cs (n + 1)
      else c :: placeholderSpec cs n := rfl

theorem spliceFrom_nil (q : List Char) (i : Nat) : spliceFrom q [] i = [] := rfl

theorem spliceFrom_single (q : List Char) (l i : Nat) :
    spliceFrom q [l] i =
      ('$' :: Nat.toDigits 10 (i + 1)) ++ (q.drop (l + 1)).take (q.length - (l + 1)) := by
  show ('$' :: Nat.toDigits 10 (i + 1)) ++ (q.drop (l + 1)).take (q.length - (l + 1)) ++
      spliceFrom q [] (i + 1) = _
  rw [spliceFrom_nil, List.append_nil]

theorem spliceFrom_cons₂ (q : List Char) (l l2 : Nat) (rest : List Nat) (i : Nat) :
    spliceFrom q (l :: l2 :: rest) i =
      ('$' :: Nat.toDigits 10 (i + 1)) ++ (q.drop (l + 1)).take (l2 - (l + 1)) ++
        spliceFrom q (l2 :: rest) (i + 1) := rfl

theorem placeholderAt_nilIdx {q : List Char} (h : qmarkIndices q 0 = []) (i : Nat) :
    placeholderAt q i = q := by
  unfold placeholderAt
  rw [h]

theorem placeholderAt_consIdx {q : List Char} {l : Nat} {rest : List Nat}
    (h : qmarkIndices q 0 = l :: rest) (i : Nat) :
    placeholderAt q i = q.take l ++ spliceFrom q (l :: rest) i := by
  unfold placeholderAt
  rw [h]

theorem placeholderSpec_of_no_qmark (cs : List Char) :
    ∀ i n : Nat, qmarkIndices cs i = [] → placeholderSpec cs n = cs := by
  induction cs with
  | nil => intro i n _; rfl
  | cons c cs ih =>
    intro i n h
    unfold qmarkIndices at h
    by_cases hc : c = '?'
    · rw [if_pos hc] at h
      exact absurd h (by simp)
    · rw [if_neg hc] at h
      unfold placeholderSpec
      rw [if_neg hc, ih (i + 1) n h]

theorem qmarkIndices_shift (cs : List Char) :
    ∀ i : Nat, qmarkIndices cs (i + 1) = (qmarkIndices cs i).map (· + 1) := by
  induction cs with
  | nil => intro i; rfl
  | cons c cs ih =>
    intro i
    unfold qmarkIndices
    by_cases hc : c = '?'
    · rw [if_pos hc, if_pos hc, List.map_cons, ih (i + 1)]
    · rw [if_neg hc, if_neg hc, ih (i + 1)]

theorem spliceFrom_shift (occ : List Nat) :
    ∀ (c : Char) (q : List Char) (i : Nat),
      spliceFrom (c :: q) (occ.map (· + 1)) i = spliceFrom q occ i := by
  induction occ with
  | nil => intro c q i; rfl
  | cons l rest ih =>
    intro c q i
    cases rest with
    | nil =>
      unfold spliceFrom
      dsimp only [List.map_cons, List.map_nil]
      rw [List.drop_succ_cons, List.length_cons, Nat.succ_sub_succ]
      rfl
    | cons l2 rest2 =>
      unfold spliceFrom
      dsimp only [List.map_cons]
      rw [List.drop_succ_cons, Nat.succ_sub_succ]
      rw [show ((l2 + 1) :: rest2.map (· + 1)) = ((l2 :: rest2).map (· + 1)) from rfl]
      rw [ih c q (i + 1)]

theorem placeholderAt_spec (q : List Char) :
    ∀ i : Nat, placeholderAt q i = placeholderSpec q (i + 1) := by
  induction q with
  | nil => intro i; rfl
  | cons c cs ih =>
    intro i
    have hshift : qmarkIndices cs 1 = (qmarkIndices cs 0).map (· + 1) :=
      qmarkIndices_shift cs 0
    by_cases hc : c = '?'
    · have hsc : qmarkIndices (c :: cs) 0 = 0 :: qmarkIndices cs 1 := by
        rw [qmarkIndices_cons, if_pos hc]
      cases h0 : qmarkIndices cs 0 with
      | nil =>
        rw [hshift, h0] at hsc
        dsimp only [List.map_nil] at hsc
        rw [placeholderAt_consIdx hsc i]
        rw [placeholderSpec_cons, if_pos hc,
          placeholderSpec_of_no_qmark cs 0 (i + 1 + 1) h0]
        rw [spliceFrom_single]
        simp
      | cons l0 rest0 =>
        rw [hshift, h0] at hsc
        dsimp only [List.map_cons] at hsc
        rw [placeholderAt_consIdx hsc i]
        rw [spliceFrom_cons₂]
        rw [show ((l0 + 1) :: rest0.map (· + 1)) = ((l0 :: rest0).map (· + 1)) from rfl,
          spliceFrom_shift (l0 :: rest0) c cs (i + 1)]
        rw [placeholderSpec_cons, if_pos hc, ← ih (i + 1),
          placeholderAt_consIdx h0 (i + 1)]
        simp [Nat.succ_sub_succ]
    · have hsc : qmarkIndices (c :: cs) 0 = qmarkIndices cs 1 := by
        rw [qmarkIndices_cons, if_neg hc]
      cases h0 : qmarkIndices cs 0 with
      | nil =>
        rw [hshift, h0] at hsc
        rw [placeholderAt_nilIdx (by simpa using hsc) i]
        rw [placeholderSpec_cons, if_neg hc,
          placeholderSpec_of_no_qmark cs 0 (i + 1) h0]
      | cons l0 rest0 =>
        rw [hshift, h0] at hsc
        dsimp only [List.map_cons] at hsc
        rw [placeholderAt_consIdx hsc i]
        rw [show ((l0 + 1) :: rest0.map (· + 1)) = ((l0 :: rest0).map (· + 1)) from rfl,
          spliceFrom_shift (l0 :: rest0) c cs i]
        rw [placeholderSpec_cons, if_neg hc, ← ih i,
          placeholderAt_consIdx h0 i]
        rw [List.take_succ_cons]
        simp

theorem qmarkIndices_of_no_qmark (cs : List Char) :
    ∀ i : Nat, '?' ∉ cs → qmarkIndices cs i = [] := by
  induction cs with
  | nil => intro i _; rfl
  | cons c cs ih =>
    intro i hmem
    rw [qmarkIndices_cons, if_neg (by
      intro hcq
      exact hmem (by rw [hcq]; exact List.mem_cons_self _ _))]
    exact ih (i + 1) (fun h => hmem (List.mem_cons_of_mem c h))

/-! ### Claim theorems -/

/-- C3: for every executed append statement, a row is inserted iff the
concurrency check is disabled or the computed current maximum sequence for
the aggregate equals the supplied previous-sequence value, where the two
NULL cases ("no rows yet" and "previousSequence absent") match exactly each
other — i.e. `Option` equality of the computed maximum and the bound
parameter. -/
theorem crdbInsert_row_iff_check_disabled_or_max_matches
    (db : DB) (now : Nat) (p : InsertParams) :
    (crdbInsert db now p).isSome ↔
      (p.checkPrevious = false ∨
        maxEventSeq db.rows p.aggregateType p.aggregateID = p.previousSequence) := by
  unfold crdbInsert
  cases hc : p.checkPrevious <;>
    cases hm : maxEventSeq db.rows p.aggregateType p.aggregateID <;>
      cases hp : p.previousSequence <;> simp [seqMatches, hm, hp]

/-- C8: `Push` with an empty batch commits nothing, mutates nothing, and
returns no error. -/
theorem push_empty_noop (db : DB) (now : Nat) : Push db now [] = (db, [], none) := rfl

/-- C1 (counterexample): a `Push` of one event with
`checkPreviousSequence = true` whose claimed previous sequence (3) does not
match the current maximum of its aggregate (no rows yet), so the
conditional insert yields no row, is reported with kind `Internal`
(`ThrowInternal` of the scan error, id SQL-SBP37) — not with kind
`PreconditionFailed` as the claim states. -/
theorem conflict_noRow_not_precondition_cex :
    (Push db0 7 [{ baseE with previousSequence := 3 }]).2.2.map CaosErr.kind =
        some ErrKind.internal ∧
      (Push db0 7 [{ baseE with previousSequence := 3 }]).2.2.map CaosErr.kind ≠
        some ErrKind.preconditionFailed := by
  decide

/-- C1 (amended): when the conditional-insert statement of a pushed event
yields no row (the claimed previous sequence does not match the current
maximum), the engine reports the failure as an `Internal` error with id
SQL-SBP37 — the same classification it gives every other statement
execution error; `PreconditionFailed` is produced only for the
linked-events aggregate mismatch, never for the no-row outcome. -/
theorem conflict_noRow_reported_internal (evts : List Event) (db : DB) (now : Nat)
    (e : Event) (prev : Nat)
    (h1 : resolvePrev evts e = .ok prev)
    (h2 : crdbInsert db now (insertParams e prev) = none) :
    (pushOne evts db now e).2.2 = some ⟨.internal, "SQL-SBP37"⟩ := by
  rw [pushOne_noRow h1 h2]

theorem conflict_noRow_reported_internal_witness :
    (pushOne [] db0 7 { baseE with previousSequence := 3 }).2.2 =
      some ⟨.internal, "SQL-SBP37"⟩ :=
  conflict_noRow_reported_internal [] db0 7 { baseE with previousSequence := 3 } 3 rfl rfl

/-- C9: when an event's statement execution fails (the insert produced no
row, so the scan wrote back none of the server-assigned fields), the
per-event task still overwrites the event's `previousSequence` field with
the resolved previous-sequence value — line 148 runs unconditionally —
while every other field of the caller's event struct is left unchanged, and
the database is untouched by that task. -/
theorem failed_statement_overwrites_previousSequence (evts : List Event) (db : DB)
    (now : Nat) (e : Event) (prev : Nat)
    (h1 : resolvePrev evts e = .ok prev)
    (h2 : crdbInsert db now (insertParams e prev) = none) :
    pushOne evts db now e =
      ({ e with previousSequence := prev }, db, some ⟨.internal, "SQL-SBP37"⟩) :=
  pushOne_noRow h1 h2

theorem failed_statement_overwrites_previousSequence_witness :
    pushOne [peW] db0 7 eW =
      ({ eW with previousSequence := 9 }, db0, some ⟨.internal, "SQL-SBP37"⟩) ∧
      eW.previousSequence ≠ 9 :=
  ⟨failed_statement_overwrites_previousSequence [peW] db0 7 eW 9 rfl rfl, by decide⟩

/-- C7: for every event whose per-event statement succeeds, `Push` writes
the server-assigned `id`, `sequence`, `previousSequence` and `creationDate`
of the inserted row back onto the event struct; and when the caller
supplied no creation date (the zero timestamp), the stored and written-back
creation date is the server-assigned current time. -/
theorem success_writes_back_server_fields (evts : List Event) (db : DB) (now : Nat)
    (e : Event) (h : (pushOne evts db now e).2.2 = none) :
    ∃ r : Row,
      (pushOne evts db now e).2.1.rows = db.rows ++ [r] ∧
      (pushOne evts db now e).1 =
        { e with
            id := r.id
            sequence := r.eventSequence
            previousSequence := sequenceScan r.previousSequence
            creationDate := r.creationDate } ∧
      (e.creationDate = 0 → r.creationDate = now) := by
  cases hres : resolvePrev evts e with
  | error err =>
    rw [pushOne_resolveErr hres] at h
    exact absurd h (by simp)
  | ok prev =>
    cases hins : crdbInsert db now (insertParams e prev) with
    | none =>
      rw [pushOne_noRow hres hins] at h
      exact absurd h (by simp)
    | some pr =>
      obtain ⟨db2, r⟩ := pr
      refine ⟨r, ?_, ?_, ?_⟩
      · rw [pushOne_ok hres hins]
        exact (crdbInsert_some_rows hins).1
      · rw [pushOne_ok hres hins]
      · intro h0
        rw [(crdbInsert_some_rows hins).2.2.2]
        simp [insertParams, h0]

theorem success_writes_back_server_fields_witness :
    ∃ r : Row,
      (pushOne [] db0 7 baseE).2.1.rows = db0.rows ++ [r] ∧
      (pushOne [] db0 7 baseE).1 =
        { baseE with
            id := r.id
            sequence := r.eventSequence
            previousSequence := sequenceScan r.previousSequence
            creationDate := r.creationDate } ∧
      (baseE.creationDate = 0 → r.creationDate = 7) :=
  success_writes_back_server_fields [] db0 7 baseE rfl

/-- C2: one `Push` of a batch is atomic with first-error-wins reporting —
if no per-event task reported an error, all N events were inserted (the
store grows by exactly N rows, the committed state); if any task reported
an error, the transaction was rolled back (the store is exactly the input
state) and the error surfaced is the first reported one, all others
discarded. There is never a success result alongside a partially applied
batch. -/
theorem push_atomic_first_error (db : DB) (now : Nat) (events : List Event) :
    ((Push db now events).2.2 = none →
      (Push db now events).1.rows.length = db.rows.length + events.length) ∧
    (∀ err, (Push db now events).2.2 = some err →
      (Push db now events).1 = db ∧
      (pushEvents db now events).2.2.head? = some err) := by
  cases hE : (pushEvents db now events).2.2 with
  | nil =>
    rw [push_of_errs_nil hE]
    constructor
    · intro _
      exact pushLoop_noErrs_rows now events.length 0 db events [] (by omega) hE
    · intro err hc
      exact absurd hc (by simp)
  | cons err rest =>
    rw [push_of_errs_cons hE]
    constructor
    · intro hc
      exact absurd hc (by simp)
    · intro err2 hc
      simp only [Option.some.injEq] at hc
      subst hc
      exact ⟨rfl, rfl⟩

theorem push_atomic_first_error_witness :
    (Push db0 7 [baseE]).1.rows.length = db0.rows.length + 1 ∧
    (Push db0 7 [{ baseE with previousSequence := 3 }]).1 = db0 :=
  ⟨(push_atomic_first_error db0 7 [baseE]).1 rfl,
   ((push_atomic_first_error db0 7 [{ baseE with previousSequence := 3 }]).2
      ⟨.internal, "SQL-SBP37"⟩ rfl).1⟩

/-- C4: if some event of a batch is linked via `previousEvent` to an event
with a different `aggregateType` or `aggregateID`, then that event's task
fails with the `PreconditionFailed` error "aggregate of linked events
unequal" (id SQL-J55uR) leaving the event and the store untouched — no
silent correction — whatever the task-time state of the batch and
database; and the whole batch is rejected: `Push` rolls the store back to
the input state and surfaces an error. -/
theorem linked_mismatch_rejected (db : DB) (now : Nat) (batch : List Event) (i : Nat)
    (hmis : mismatchAt batch i) :
    (∀ (db2 : DB) (evts2 : List Event) (e2 : Event), frameEqL batch evts2 →
        evts2[i]? = some e2 →
        pushOne evts2 db2 now e2 = (e2, db2, some ⟨.preconditionFailed, "SQL-J55uR"⟩)) ∧
    (Push db now batch).1 = db ∧ (Push db now batch).2.2.isSome := by
  have hne : (pushEvents db now batch).2.2 ≠ [] := by
    have hi : i < batch.length := by
      obtain ⟨e, j, pe, hi, _⟩ := hmis
      exact (List.getElem?_eq_some.mp hi).1
    exact pushLoop_errs_ne_nil_of_mismatch now batch.length 0 db batch [] i
      (Nat.zero_le i) (by omega) hmis
  refine ⟨?_, ?_⟩
  · intro db2 evts2 e2 hf he2
    exact pushOne_mismatch he2 (mismatchAt_of_frameEqL hf hmis) db2 now
  · cases hE : (pushEvents db now batch).2.2 with
    | nil => exact absurd hE hne
    | cons err rest =>
      rw [push_of_errs_cons hE]
      exact ⟨rfl, rfl⟩

theorem linked_mismatch_rejected_witness :
    (Push db0 7 [baseE, eMis]).1 = db0 ∧ (Push db0 7 [baseE, eMis]).2.2.isSome :=
  (linked_mismatch_rejected db0 7 [baseE, eMis] 1
    ⟨eMis, 0, baseE, rfl, rfl, rfl, Or.inr (by decide)⟩).2

/-- C5: the placeholder translator returns the input string with its `i`-th
occurrence of `?` (left to right) replaced by `$i` for `i = 1..k` and every
other character unchanged — the index-splicing loop of the source equals
the straightforward left-to-right replacement `placeholderSpec` numbered
from 1 — and with zero occurrences the input comes back unchanged. -/
theorem placeholder_replaces_each_marker (q : String) :
    placeholder q = ⟨placeholderSpec q.data 1⟩ ∧
    ('?' ∉ q.data → placeholder q = q) := by
  constructor
  · show String.mk (placeholderAt q.data 0) = _
    rw [placeholderAt_spec q.data 0]
  · intro h
    show String.mk (placeholderAt q.data 0) = q
    rw [placeholderAt_nilIdx (qmarkIndices_of_no_qmark q.data 0 h) 0]

theorem placeholder_replaces_each_marker_witness :
    placeholder "SELECT 1" = "SELECT 1" :=
  (placeholder_replaces_each_marker "SELECT 1").2 (by decide)

/-- C6: a `SearchQuery` holding a condition on a field outside the
recognized seven maps that field to the empty column name, makes the
builder produce empty SQL, and makes the facade return the
`InvalidArgument` error (id SQL-rWeBw) for every backend oracle — i.e.
before and independently of any backend round-trip. -/
theorem unknown_field_fails_before_io (sq : SearchQuery) (backend : Except String (List Row))
    (f : SearchFilter) (n : Nat) (hf : f ∈ sq.filters) (hn : f.field = .unrecognized n) :
    columnName f.field = "" ∧ (buildQuery sq).1 = "" ∧
    query sq backend = .error ⟨.invalidArgument, "SQL-rWeBw"⟩ := by
  have hcol : columnName f.field = "" := by rw [hn]; rfl
  have hclause : filterClause f = "" := by
    unfold filterClause
    rw [if_pos (Or.inl hcol)]
  have hmem : "" ∈ sq.filters.map filterClause := by
    rw [← hclause]
    exact List.mem_map_of_mem filterClause hf
  have hcont : (sq.filters.map filterClause).contains "" = true :=
    List.elem_eq_true_of_mem hmem
  have hbuild : (buildQuery sq).1 = "" := by
    unfold buildQuery
    dsimp only
    rw [if_pos hcont]
  refine ⟨hcol, hbuild, ?_⟩
  unfold query
  rw [if_pos hbuild]

theorem unknown_field_fails_before_io_witness :
    columnName (Field.unrecognized 42) = "" ∧
    (buildQuery ⟨.event, [⟨.unrecognized 42, .equals, "A"⟩]⟩).1 = "" ∧
    query ⟨.event, [⟨.unrecognized 42, .equals, "A"⟩]⟩ (.ok []) =
      .error ⟨.invalidArgument, "SQL-rWeBw"⟩ :=
  unknown_field_fails_before_io ⟨.event, [⟨.unrecognized 42, .equals, "A"⟩]⟩ (.ok [])
    ⟨.unrecognized 42, .equals, "A"⟩ 42 (List.mem_singleton.mpr rfl) rfl

/-- C10: `Filter` never returns events together with an error — whenever
`query` fails, `Filter` returns the nil slice (`none`) with that error, and
whenever `query` succeeds with a row list, `Filter` returns that decoded
list (for zero rows the non-nil empty list `some []`) and no error; the nil
result and the presence of an error coincide exactly. -/
theorem filter_no_partial_results (sq : SearchQuery) (backend : Except String (List Row)) :
    (∀ err, query sq backend = .error err → Filter sq backend = (none, some err)) ∧
    (∀ l, query sq backend = .ok l → Filter sq backend = (some l, none)) ∧
    ((Filter sq backend).1 = none ↔ ((Filter sq backend).2).isSome) := by
  refine ⟨?_, ?_, ?_⟩
  · intro err h
    unfold Filter
    rw [h]
  · intro l h
    unfold Filter
    rw [h]
  · unfold Filter
    cases hq : query sq backend with
    | error err => simp
    | ok l => simp

theorem filter_no_partial_results_witness :
    Filter ⟨.event, []⟩ (.ok []) = (some [], none) ∧
    Filter ⟨.event, []⟩ (.error "boom") = (none, some ⟨.internal, "SQL-IJuyR"⟩) :=
  ⟨(filter_no_partial_results ⟨.event, []⟩ (.ok [])).2.1 [] rfl,
   (filter_no_partial_results ⟨.event, []⟩ (.error "boom")).1 ⟨.internal, "SQL-IJuyR"⟩ rfl⟩

end ZES
